import Mathlib

/-!
# Monthly schedule aggregation engine: a verified model

This file gives a shallow embedding, in Lean, of the monthly-calendar
construction and weekly-schedule aggregation engine of the anime-schedule
frontend (the `MonthlySchedule` React component), and proves or refutes the
specified properties of that engine.

Modelling conventions:

* A JavaScript `Date` holding a local calendar day (always local midnight in
  this component) is represented by its day number: days since 1970-01-01 of
  the local civil date (an `Int`).  Civil (year, month, day) components are
  recovered with `civilFromDays` and produced with `daysFromCivil`
  (the standard Gregorian algorithms, exact for all days).
* The viewer's timezone is a fixed offset `tz` in seconds (local wall-clock
  time = UTC + `tz`); e.g. UTC-8 is `tz = -28800`.  An epoch-seconds instant
  `t` falls on local day `(t + tz) / 86400` (floor division).
* JavaScript `Map<string, T[]>` (insertion-ordered) is an association list.
* The `async` loader is modelled as the sequence of its synchronous segments
  (the code between `await` suspension points); each segment is a state
  transformer, and concurrent rounds interleave their segments.
-/

set_option maxHeartbeats 4000000
set_option maxRecDepth 100000
set_option linter.unnecessarySeqFocus false

namespace AnimeCal

/-! ## Civil calendar arithmetic (model of the JS `Date` type) -/

/-- Day number (days since 1970-01-01) of the civil date `(y, m, d)`,
month `m` 1-based.  Howard Hinnant's `days_from_civil` algorithm, which is
what any correct `Date` implementation computes. -/
def daysFromCivil (y m d : Int) : Int :=
  let yAdj := if m ≤ 2 then y - 1 else y
  let era := yAdj / 400
  let yoe := yAdj - era * 400
  let mp := if m ≤ 2 then m + 9 else m - 3
  let doy := (153 * mp + 2) / 5 + d - 1
  let doe := yoe * 365 + yoe / 4 - yoe / 100 + doy
  era * 146097 + doe - 719468

/-- Civil date `(year, month, day)` (month 1-based) of a day number.
Howard Hinnant's `civil_from_days` algorithm; this models the JS `Date`
accessors `getFullYear`, `getMonth() + 1`, `getDate`. -/
def civilFromDays (z : Int) : Int × Int × Int :=
  let zShift := z + 719468
  let era := zShift / 146097
  let doe := zShift - era * 146097
  let yoe := (doe - doe / 1460 + doe / 36524 - doe / 146096) / 365
  let y := yoe + era * 400
  let doy := doe - (365 * yoe + yoe / 4 - yoe / 100)
  let mp := (5 * doy + 2) / 153
  let d := doy - (153 * mp + 2) / 5 + 1
  let m := if mp < 10 then mp + 3 else mp - 9
  (if m ≤ 2 then y + 1 else y, m, d)

/-- The JS `new Date(y, m, d)` constructor (month `m` 0-based, both `m` and
`d` may overflow and are normalized, `d = 0` meaning the last day of the
previous month).  Returns the day number of the resulting local date. -/
def mkDate (y m d : Int) : Int :=
  daysFromCivil (y + m / 12) (m % 12 + 1) 1 + d - 1

/-- JS `Date.getDay()`: weekday of a day number, 0 = Sunday .. 6 = Saturday
(1970-01-01 was a Thursday, weekday 4). -/
def weekday (z : Int) : Int := (z + 4) % 7

/-- Local day number on which an epoch-seconds instant falls, for a viewer at
fixed offset `tz` seconds from UTC. -/
def localDay (tz t : Int) : Int := (t + tz) / 86400

/-- The inclusive list of day numbers `lo, lo+1, ..., hi` (empty if
`hi < lo`); models the `while (current <= endDate)` push loop. -/
def intRange (lo hi : Int) : List Int :=
  (List.range (hi - lo + 1).toNat).map (fun (i : Nat) => lo + (i : Int))

/-- The component's `calendarDays` memo: the visible month grid for displayed
month `(y, m)` (`m` 0-based, as JS `getMonth()`).  The first of the month is
extended back to the preceding-or-same Sunday and the last of the month
forward to the following-or-same Saturday. -/
def calendarDays (y m : Int) : List Int :=
  let firstDay := mkDate y m 1
  let lastDay := mkDate y (m + 1) 0
  let startDate := firstDay - weekday firstDay
  let endDate := lastDay + (6 - weekday lastDay)
  intRange startDate endDate

/-- The first cell of the month grid: the preceding-or-same Sunday of the
first of the month. -/
def gridStart (y m : Int) : Int :=
  mkDate y m 1 - weekday (mkDate y m 1)

/-- The last cell of the month grid: the following-or-same Saturday of the
last of the month. -/
def gridEnd (y m : Int) : Int :=
  mkDate y (m + 1) 0 + (6 - weekday (mkDate y (m + 1) 0))

/-- Monday of the week containing `today`: `dayOfWeek === 0 ? -6 : 1 - dayOfWeek`
applied to `today`, exactly as in `weeksToFetch`. -/
def mondayOfWeek (today : Int) : Int :=
  today + (if weekday today = 0 then -6 else 1 - weekday today)

/-- The component's `weeksToFetch` memo: the six `weeks_offset` values
requested for displayed month `(y, m)` when the real-world current local day
is `today`.  `Math.round` of the millisecond quotient is exact integer
division here, because both anchors are local midnights of Mondays in the
fixed-offset model, so their distance is an exact multiple of 7 days. -/
def weeksToFetch (today y m : Int) : List Int :=
  let currentMonday := mondayOfWeek today
  let firstCalendarDay := (calendarDays y m).headD 0
  let firstWeekMonday := mondayOfWeek firstCalendarDay
  let startOffset := (firstWeekMonday - currentMonday) / 7
  (List.range 6).map (fun (i : Nat) => startOffset + (i : Int))

/-! ## Decimal rendering and date keys (model of `formatLocalDateKey`) -/

/-- The character of a decimal digit. -/
def digitChar (d : Nat) : Char := Char.ofNat (48 + d)

/-- Decimal digits of `n`, least significant first, with explicit fuel
(structural recursion, so that the kernel can evaluate it). -/
def digitsAux : Nat → Nat → List Nat
  | 0, _ => []
  | fuel + 1, n => if n = 0 then [] else n % 10 :: digitsAux fuel (n / 10)

/-- Decimal digits of `n`, least significant first (`[]` for 0). -/
def decDigits (n : Nat) : List Nat := digitsAux (n + 1) n

/-- The decimal string of a natural number, as JS number-to-string
conversion produces for a nonnegative integer. -/
def decStr (n : Nat) : String :=
  if n = 0 then "0" else String.mk ((decDigits n).reverse.map digitChar)

/-- The decimal string of an integer (JS template-literal rendering). -/
def intStr (i : Int) : String :=
  if i < 0 then "-" ++ decStr (-i).toNat else decStr i.toNat

/-- Place value of a digit list, least significant digit first (used to
prove that decimal rendering is injective). -/
def digitsVal (l : List Nat) : Nat := l.foldr (fun d acc => d + 10 * acc) 0

/-- JS `String(n).padStart(2, '0')`. -/
def padTwo (i : Int) : String :=
  let s := intStr i
  if s.length < 2 then String.mk (List.replicate (2 - s.length) '0') ++ s else s

/-- The component's `formatLocalDateKey`, given the already-resolved local
civil components: `${year}-${month pad2}-${day pad2}` built from
`getFullYear()`, `getMonth() + 1`, `getDate()` — i.e. from local calendar
components, with no UTC-based serialization anywhere. -/
def formatLocalDateKey (y m d : Int) : String :=
  intStr y ++ "-" ++ padTwo m ++ "-" ++ padTwo d

/-- Date key of a local day number. -/
def dateKeyOfDay (z : Int) : String :=
  formatLocalDateKey (civilFromDays z).1 (civilFromDays z).2.1 (civilFromDays z).2.2

/-- `formatLocalDateKey(new Date(t * 1000))`: the viewer-local date key of an
epoch-seconds instant. -/
def epochToLocalDateKey (tz t : Int) : String := dateKeyOfDay (localDay tz t)

/-! ## Data model: schedule entries and the day index -/

/-- The `airing_status` union type of the `ScheduleItem` interface. -/
inductive AiringStatus where
  | aired
  | airing_soon
  | airing_today
  | upcoming
deriving DecidableEq

/-- The `ScheduleItem` interface of the component (one episode's airing
record as served by the weekly schedule endpoint). -/
structure ScheduleItem where
  schedule_id : Int
  airing_at : Int
  episode : Int
  anime_id : Int
  title : String
  cover_image : String
  status : String
  total_episodes : Option Int
  score : Int
  airs_in_human : String
  airing_status : AiringStatus
  airing_time : String
  airing_date : String
deriving DecidableEq

/-- A week payload's `schedule` field: the server's own day buckets
(uppercase weekday name, in `Object.entries` order) with their entries. -/
abbrev WeekSchedule := List (String × List ScheduleItem)

/-- Outcome of one weekly fetch attempt.  `none` covers both a network/HTTP
failure (the inner `catch`) and a payload without a truthy `schedule` field
(the `weekData?.schedule` guard); either way the week contributes nothing. -/
abbrev FetchResult := Option WeekSchedule

/-- The `Map<string, ScheduleItem[]>` day index, as an insertion-ordered
association list (JS `Map` iterates in insertion order). -/
abbrev DayIndex := List (String × List ScheduleItem)

/-- JS `map.has(k)`. -/
def mapHas : DayIndex → String → Bool
  | [], _ => false
  | (k0, _) :: t, k => if k0 = k then true else mapHas t k

/-- JS `map.get(k)`. -/
def mapGet? : DayIndex → String → Option (List ScheduleItem)
  | [], _ => none
  | (k0, v) :: t, k => if k0 = k then some v else mapGet? t k

/-- JS `map.get(k) || []` (also the value read through `get(k)!` after a
successful `has`). -/
def mapGetD (m : DayIndex) (k : String) : List ScheduleItem :=
  (mapGet? m k).getD []

/-- The aggregation body `if (!m.has(k)) m.set(k, []); m.get(k)!.push(v)`:
append `v` to the list at `k`, creating the key at the end of the map's
insertion order when absent. -/
def mapPush : DayIndex → String → ScheduleItem → DayIndex
  | [], k, v => [(k, [v])]
  | (k0, vs) :: t, k, v =>
      if k0 = k then (k0, vs ++ [v]) :: t else (k0, vs) :: mapPush t k v

/-- The locally recomputed date key of an entry:
`formatLocalDateKey(new Date(item.airing_at * 1000))`. -/
def itemKey (tz : Int) (it : ScheduleItem) : String :=
  epochToLocalDateKey tz it.airing_at

/-- The stored entry `{ ...item, airing_date: localDateKey }`. -/
def reKeyItem (tz : Int) (it : ScheduleItem) : ScheduleItem :=
  { it with airing_date := itemKey tz it }

/-- Fold one fetched entry into the index, exactly as the inner `forEach`
body does. -/
def pushItem (tz : Int) (m : DayIndex) (it : ScheduleItem) : DayIndex :=
  mapPush m (itemKey tz it) (reKeyItem tz it)

/-- Fold one week's fetch result into the index: a failed or malformed week
contributes nothing; a payload's buckets are walked in order, the server's
bucket keys being ignored. -/
def addWeek (tz : Int) (m : DayIndex) (r : FetchResult) : DayIndex :=
  match r with
  | none => m
  | some buckets => buckets.foldl (fun acc b => b.2.foldl (pushItem tz) acc) m

/-- The aggregation pass of `loadMonthSchedule`: starting from the brand-new
empty `newScheduleData` map, fold every week's result in request order. -/
def buildIndex (tz : Int) (results : List FetchResult) : DayIndex :=
  results.foldl (addWeek tz) []

/-- All entries of all successful week payloads, in processing order. -/
def allItems (results : List FetchResult) : List ScheduleItem :=
  results.foldr
    (fun r acc =>
      match r with
      | none => acc
      | some buckets => (buckets.map (fun b => b.2)).flatten ++ acc)
    []

/-- Number of entries with a given `schedule_id` stored anywhere in the
index. -/
def countWithId (m : DayIndex) (i : Int) : Nat :=
  (((m.map (fun e => e.2)).flatten).filter (fun it => it.schedule_id = i)).length

/-! ## Default-selection policy -/

/-- The JS guard `selectedDate && newScheduleData.has(selectedDate)`
(rule 1): the previous selection is kept iff it is truthy (non-null and not
the empty string) and is a key of the new index. -/
def rule1Keeps (idx : DayIndex) (prev : Option String) : Bool :=
  match prev with
  | none => false
  | some k => !(k = "") && mapHas idx k

/-- The grid days of the displayed month itself: `calendarDays.filter` on
equal `getMonth()` and `getFullYear()`. -/
def monthDaysOf (y m : Int) : List Int :=
  (calendarDays y m).filter
    (fun d => (civilFromDays d).2.1 = m + 1 && (civilFromDays d).1 = y)

/-- The fallback arm of the selection block (rules 2-4), as the code writes
it: today if today is in the displayed month; else the first grid day of the
month that is a key with a non-empty list; else the first of the month. -/
def codeFallback (idx : DayIndex) (y m today : Int) : String :=
  if (civilFromDays today).2.1 = m + 1 ∧ (civilFromDays today).1 = y then
    dateKeyOfDay today
  else
    match (monthDaysOf y m).find?
        (fun d => mapHas idx (dateKeyOfDay d) && (mapGetD idx (dateKeyOfDay d)).length != 0) with
    | some d => dateKeyOfDay d
    | none => dateKeyOfDay (mkDate y m 1)

/-- The active date key after the selection block of `loadMonthSchedule`
runs against the freshly built index. -/
def codeSelect (idx : DayIndex) (y m : Int) (prev : Option String) (today : Int) : String :=
  match prev with
  | some k => if rule1Keeps idx (some k) then k else codeFallback idx y m today
  | none => codeFallback idx y m today

/-- Rules 2-4 of the specified decision order, written from the
specification's words: today's key when today falls within the displayed
month; else the first day of the displayed month, in ascending calendar
order, whose entry list in the index is non-empty; else the first calendar
day of the displayed month. -/
def specRules (idx : DayIndex) (y m today : Int) : String :=
  if (civilFromDays today).1 = y ∧ (civilFromDays today).2.1 = m + 1 then
    dateKeyOfDay today
  else
    match (monthDaysOf y m).find? (fun d => !(mapGetD idx (dateKeyOfDay d)).isEmpty) with
    | some d => dateKeyOfDay d
    | none => dateKeyOfDay (mkDate y m 1)

/-- The specified decision order, written rule by rule from the
specification's words: (1) keep a previous selection that is a key of the
new index; else fall to `specRules` (rules 2-4). -/
def specSelect (idx : DayIndex) (y m : Int) (prev : Option String) (today : Int) : String :=
  match prev with
  | some k =>
      if mapHas idx k then k
      else specRules idx y m today
  | none => specRules idx y m today

/-! ## The asynchronous loader, one round per `weeksToFetch` change -/

/-- The component state touched by `loadMonthSchedule`. -/
structure CompState where
  scheduleData : DayIndex
  selectedDate : Option String
  selectedAnime : List ScheduleItem
  loading : Bool
  loadingProgress : Int
deriving DecidableEq

/-- One invocation of `loadMonthSchedule`: its closure (the displayed month,
the captured `selectedDate`, the viewer timezone, today's local day at
completion time) together with the six fetch outcomes it will receive. -/
structure Round where
  tz : Int
  year : Int
  month : Int
  closureSelected : Option String
  today : Int
  results : List FetchResult

/-- `setLoading(true); setLoadingProgress(0)` at the top of the round. -/
def startStep (s : CompState) : CompState :=
  { s with loading := true, loadingProgress := 0 }

/-- `Math.round((completed / total) * 100)` for integers, as
`setLoadingProgress` receives it. -/
def progressValue (completed total : Int) : Int :=
  (200 * completed + total) / (2 * total)

/-- The progress update after the `i`-th week (1-based) of `total` settles. -/
def progressStep (i total : Int) (s : CompState) : CompState :=
  { s with loadingProgress := progressValue i total }

/-- The final synchronous segment of a round: from the last fetch settling
to the end of the function there is no `await`, so the last progress update,
`setScheduleData(newScheduleData)`, the selection block, and the `finally`
block (`setLoading(false); setLoadingProgress(100)`) all commit atomically.
Note that `setScheduleData` is unconditional: no generation or identity of
the round is compared against anything before committing. -/
def completionStep (r : Round) (s : CompState) : CompState :=
  let idx := buildIndex r.tz r.results
  if rule1Keeps idx r.closureSelected then
    { s with scheduleData := idx, loading := false, loadingProgress := 100 }
  else
    let key := codeFallback idx r.year r.month r.today
    { s with
        scheduleData := idx
        selectedDate := some key
        selectedAnime := mapGetD idx key
        loading := false
        loadingProgress := 100 }

/-- The synchronous segments of one round, in program order: the start
segment, one progress segment per settled week except the last (each
separated from the next by an awaited delay), and the completion segment. -/
def roundSteps (r : Round) : List (CompState → CompState) :=
  [startStep] ++
    (List.range (r.results.length - 1)).map
      (fun (i : Nat) => progressStep ((i : Int) + 1) r.results.length) ++
    [completionStep r]

/-- Run a list of synchronous segments in order. -/
def applySteps (steps : List (CompState → CompState)) (s : CompState) : CompState :=
  steps.foldl (fun st f => f st) s

/-- Run one round to completion with no interleaved concurrent round. -/
def runRound (r : Round) (s : CompState) : CompState :=
  applySteps (roundSteps r) s

/-- `l` is an interleaving of `a` and `b`: the event-loop executes the
segments of two concurrent rounds in some order that preserves each round's
own program order. -/
inductive Interleave : List (CompState → CompState) → List (CompState → CompState) →
    List (CompState → CompState) → Prop where
  | nil : Interleave [] [] []
  | left {l a b} (x : CompState → CompState) :
      Interleave l a b → Interleave (x :: l) (x :: a) b
  | right {l a b} (x : CompState → CompState) :
      Interleave l a b → Interleave (x :: l) a (x :: b)

/-- The component's initial state (`useState` initializers, before any
round; `loading` starts `true`). -/
def initState : CompState :=
  { scheduleData := []
    selectedDate := none
    selectedAnime := []
    loading := true
    loadingProgress := 0 }



/-- Rename every server day-bucket key of every successful payload (used to
state that the aggregator ignores those keys entirely). -/
def renameBuckets (f : String → String) (results : List FetchResult) : List FetchResult :=
  results.map (Option.map (List.map (fun b => (f b.1, b.2))))

/-- A concrete schedule entry, airing 2025-01-10 12:00 UTC. -/
def raceItemA : ScheduleItem :=
  { schedule_id := 101
    airing_at := daysFromCivil 2025 1 10 * 86400 + 43200
    episode := 3
    anime_id := 11
    title := "Alpha"
    cover_image := ""
    status := "RELEASING"
    total_episodes := some 12
    score := 80
    airs_in_human := ""
    airing_status := AiringStatus.aired
    airing_time := ""
    airing_date := "2025-01-10" }

/-- A concrete schedule entry, airing 2025-02-05 12:00 UTC. -/
def raceItemB : ScheduleItem :=
  { schedule_id := 202
    airing_at := daysFromCivil 2025 2 5 * 86400 + 43200
    episode := 7
    anime_id := 22
    title := "Beta"
    cover_image := ""
    status := "RELEASING"
    total_episodes := none
    score := 75
    airs_in_human := ""
    airing_status := AiringStatus.upcoming
    airing_time := ""
    airing_date := "2025-02-05" }

/-- An entry that the server duplicates in two adjacent week payloads
(schedule id 42, airing 2025-01-15T07:30:00Z). -/
def dupItem : ScheduleItem :=
  { schedule_id := 42
    airing_at := 1736926200
    episode := 1
    anime_id := 33
    title := "Gamma"
    cover_image := ""
    status := "RELEASING"
    total_episodes := some 24
    score := 90
    airs_in_human := ""
    airing_status := AiringStatus.upcoming
    airing_time := ""
    airing_date := "2025-01-15" }

/-- Round A of the stale-round race: fetches for displayed month
January 2025, one successful week containing `raceItemA`; the real-world
today is 2025-01-15; viewer at UTC. -/
def roundA : Round :=
  { tz := 0
    year := 2025
    month := 0
    closureSelected := none
    today := daysFromCivil 2025 1 15
    results := [some [("FRIDAY", [raceItemA])]] }

/-- Round B of the stale-round race: started after A by navigating to
February 2025, one successful week containing `raceItemB`; the captured
selection is a key of B's index. -/
def roundB : Round :=
  { tz := 0
    year := 2025
    month := 1
    closureSelected := some "2025-02-05"
    today := daysFromCivil 2025 1 15
    results := [some [("WEDNESDAY", [raceItemB])]] }

/-- An event-loop schedule in which round B runs to completion while round A
is suspended at its first await, and A's completion segment runs last. -/
def raceTrace : List (CompState → CompState) :=
  (roundSteps roundA).take 1 ++ roundSteps roundB ++ (roundSteps roundA).drop 1

/-! # Theorems -/

/-! ## Civil calendar correctness -/

theorem hinnant_yoe_bounds (doe : Int) (h0 : 0 ≤ doe) (h1 : doe ≤ 146096) :
    0 ≤ (doe - doe / 1460 + doe / 36524 - doe / 146096) / 365 ∧
    (doe - doe / 1460 + doe / 36524 - doe / 146096) / 365 ≤ 399 := by
  omega

theorem hinnant_doy_bounds (doe : Int) (h0 : 0 ≤ doe) (h1 : doe ≤ 146096) :
    0 ≤ doe - (365 * ((doe - doe / 1460 + doe / 36524 - doe / 146096) / 365) +
          ((doe - doe / 1460 + doe / 36524 - doe / 146096) / 365) / 4 -
          ((doe - doe / 1460 + doe / 36524 - doe / 146096) / 365) / 100) ∧
    doe - (365 * ((doe - doe / 1460 + doe / 36524 - doe / 146096) / 365) +
          ((doe - doe / 1460 + doe / 36524 - doe / 146096) / 365) / 4 -
          ((doe - doe / 1460 + doe / 36524 - doe / 146096) / 365) / 100) ≤ 365 := by
  obtain ⟨e, he, h0e, h1e⟩ : ∃ e, doe / 1460 = e ∧ 0 ≤ e ∧ e ≤ 100 :=
    ⟨_, rfl, by omega, by omega⟩
  rw [he]
  obtain ⟨b, hb, h0b, h1b⟩ : ∃ b, (doe - e + doe / 36524 - doe / 146096) / 365 = b ∧
      4 * e - 2 ≤ b ∧ b ≤ 4 * e + 5 := ⟨_, rfl, by omega, by omega⟩
  rw [hb]
  interval_cases e <;> first
    | omega
    | (interval_cases b <;> omega)

/-- `daysFromCivil` is a left inverse of `civilFromDays`: converting a day
number to its civil components and back is the identity.  In particular the
civil conversion is injective: distinct local days have distinct component
triples. -/
theorem daysFromCivil_civilFromDays (z : Int) :
    daysFromCivil (civilFromDays z).1 (civilFromDays z).2.1 (civilFromDays z).2.2 = z := by
  simp only [civilFromDays, daysFromCivil]
  obtain ⟨era, hera⟩ : ∃ e, (z + 719468) / 146097 = e := ⟨_, rfl⟩
  rw [hera]
  obtain ⟨doe, hdoe, h0doe, h1doe⟩ :
      ∃ w, z + 719468 - era * 146097 = w ∧ 0 ≤ w ∧ w ≤ 146096 :=
    ⟨_, rfl, by omega, by omega⟩
  rw [hdoe]
  have hyoeB := hinnant_yoe_bounds doe h0doe h1doe
  have hdoyB := hinnant_doy_bounds doe h0doe h1doe
  obtain ⟨yoe, hyoe⟩ : ∃ w, (doe - doe / 1460 + doe / 36524 - doe / 146096) / 365 = w :=
    ⟨_, rfl⟩
  rw [hyoe] at hyoeB hdoyB ⊢
  obtain ⟨doy, hdoy⟩ : ∃ w, doe - (365 * yoe + yoe / 4 - yoe / 100) = w := ⟨_, rfl⟩
  rw [hdoy] at hdoyB ⊢
  obtain ⟨mp, hmp, h0mp, h1mp⟩ : ∃ w, (5 * doy + 2) / 153 = w ∧ 0 ≤ w ∧ w ≤ 11 :=
    ⟨_, rfl, by omega, by omega⟩
  rw [hmp]
  have hk : (yoe + era * 400) / 400 = era := by omega
  have hc1 : yoe + era * 400 - era * 400 = yoe := by ring
  split_ifs <;>
    first
    | omega
    | (rw [show yoe + era * 400 + 1 - 1 = yoe + era * 400 from by ring, hk, hc1]; omega)
    | (rw [hk, hc1]; omega)

/-- The civil components of any day number are a well-formed date: month in
1..12 and day in 1..31. -/
theorem civilFromDays_month_day_bounds (z : Int) :
    1 ≤ (civilFromDays z).2.1 ∧ (civilFromDays z).2.1 ≤ 12 ∧
    1 ≤ (civilFromDays z).2.2 ∧ (civilFromDays z).2.2 ≤ 31 := by
  simp only [civilFromDays]
  obtain ⟨era, hera⟩ : ∃ e, (z + 719468) / 146097 = e := ⟨_, rfl⟩
  rw [hera]
  obtain ⟨doe, hdoe, h0doe, h1doe⟩ :
      ∃ w, z + 719468 - era * 146097 = w ∧ 0 ≤ w ∧ w ≤ 146096 :=
    ⟨_, rfl, by omega, by omega⟩
  rw [hdoe]
  have hdoyB := hinnant_doy_bounds doe h0doe h1doe
  obtain ⟨yoe, hyoe⟩ : ∃ w, (doe - doe / 1460 + doe / 36524 - doe / 146096) / 365 = w :=
    ⟨_, rfl⟩
  rw [hyoe] at hdoyB ⊢
  obtain ⟨doy, hdoy⟩ : ∃ w, doe - (365 * yoe + yoe / 4 - yoe / 100) = w := ⟨_, rfl⟩
  rw [hdoy] at hdoyB ⊢
  obtain ⟨mp, hmp, h0mp, h1mp⟩ : ∃ w, (5 * doy + 2) / 153 = w ∧ 0 ≤ w ∧ w ≤ 11 :=
    ⟨_, rfl, by omega, by omega⟩
  rw [hmp]
  split_ifs <;> omega

/-- Every month of a normalized displayed date has between 28 and 31 days:
`new Date(y, m + 1, 0)` is 27 to 30 days after `new Date(y, m, 1)`. -/
theorem monthLen_bounds (y m : Int) (h0 : 0 ≤ m) (h1 : m ≤ 11) :
    28 ≤ mkDate y (m + 1) 0 + 1 - mkDate y m 1 ∧
    mkDate y (m + 1) 0 + 1 - mkDate y m 1 ≤ 31 := by
  interval_cases m <;>
    (simp only [mkDate, daysFromCivil]; norm_num) <;> omega

theorem intRange_length (lo hi : Int) : (intRange lo hi).length = (hi - lo + 1).toNat := by
  simp only [intRange, List.length_map, List.length_range]

theorem intRange_getElem? (lo hi : Int) (i : Nat) (h : i < (intRange lo hi).length) :
    (intRange lo hi)[i]? = some (lo + i) := by
  rw [intRange_length] at h
  simp only [intRange, List.getElem?_map, List.getElem?_range h, Option.map_some']

theorem intRange_mem (lo hi a : Int) : a ∈ intRange lo hi ↔ lo ≤ a ∧ a ≤ hi := by
  simp only [intRange, List.mem_map, List.mem_range]
  constructor
  · rintro ⟨i, hi1, rfl⟩
    omega
  · rintro ⟨h1, h2⟩
    exact ⟨(a - lo).toNat, by omega, by omega⟩

/-! ## Claim C8: shape of the calendar grid -/

/-- C8 (amended).  For every displayed month, the CalendarGrid is the
inclusive sequence of dates from the preceding-or-same Sunday of the first
of the month to the following-or-same Saturday of the last of the month, so
it always contains a whole number of weeks; its cell count is 28, 35 or 42
(not only 35 or 42: a non-leap February starting on Sunday yields 28). -/
theorem claim_C8_grid_shape (y m : Int) (h0 : 0 ≤ m) (h1 : m ≤ 11) :
    calendarDays y m = intRange (gridStart y m) (gridEnd y m) ∧
    weekday (gridStart y m) = 0 ∧
    gridStart y m ≤ mkDate y m 1 ∧ mkDate y m 1 - gridStart y m < 7 ∧
    weekday (gridEnd y m) = 6 ∧
    mkDate y (m + 1) 0 ≤ gridEnd y m ∧ gridEnd y m - mkDate y (m + 1) 0 < 7 ∧
    (∀ i : Nat, i < (calendarDays y m).length →
      (calendarDays y m)[i]? = some (gridStart y m + i)) ∧
    (calendarDays y m).length % 7 = 0 ∧
    ((calendarDays y m).length = 28 ∨ (calendarDays y m).length = 35 ∨
      (calendarDays y m).length = 42) := by
  have hL := monthLen_bounds y m h0 h1
  have hEq : calendarDays y m = intRange (gridStart y m) (gridEnd y m) := rfl
  have hlen : (calendarDays y m).length = (gridEnd y m - gridStart y m + 1).toNat := by
    rw [hEq, intRange_length]
  refine ⟨hEq, ?_, ?_, ?_, ?_, ?_, ?_, ?_, ?_, ?_⟩
  · simp only [gridStart, weekday] at *; omega
  · simp only [gridStart, weekday] at *; omega
  · simp only [gridStart, weekday] at *; omega
  · simp only [gridEnd, weekday] at *; omega
  · simp only [gridEnd, weekday] at *; omega
  · simp only [gridEnd, weekday] at *; omega
  · intro i hi
    rw [hEq]; rw [hEq] at hi
    exact intRange_getElem? _ _ i hi
  · rw [hlen]; simp only [gridStart, gridEnd, weekday] at *; omega
  · rw [hlen]; simp only [gridStart, gridEnd, weekday] at *; omega

/-- C8 counterexample to the cell-count part as stated: the grid of
February 2026 (displayed year 2026, `getMonth() = 1`), a non-leap February
whose first day is a Sunday, has exactly 28 cells — neither 35 nor 42. -/
theorem claim_C8_counterexample :
    (calendarDays 2026 1).length = 28 ∧
    ¬((calendarDays 2026 1).length = 35 ∨ (calendarDays 2026 1).length = 42) := by
  decide

/-- C8 witness: the amended grid-shape theorem instantiated at the displayed
month January 2025. -/
theorem claim_C8_witness :
    (0 : Int) ≤ 0 ∧ (0 : Int) ≤ 11 ∧
    (calendarDays 2025 0 = intRange (gridStart 2025 0) (gridEnd 2025 0) ∧
      weekday (gridStart 2025 0) = 0 ∧
      gridStart 2025 0 ≤ mkDate 2025 0 1 ∧ mkDate 2025 0 1 - gridStart 2025 0 < 7 ∧
      weekday (gridEnd 2025 0) = 6 ∧
      mkDate 2025 (0 + 1) 0 ≤ gridEnd 2025 0 ∧ gridEnd 2025 0 - mkDate 2025 (0 + 1) 0 < 7 ∧
      (∀ i : Nat, i < (calendarDays 2025 0).length →
        (calendarDays 2025 0)[i]? = some (gridStart 2025 0 + i)) ∧
      (calendarDays 2025 0).length % 7 = 0 ∧
      ((calendarDays 2025 0).length = 28 ∨ (calendarDays 2025 0).length = 35 ∨
        (calendarDays 2025 0).length = 42)) :=
  ⟨by decide, by decide, claim_C8_grid_shape 2025 0 (by decide) (by decide)⟩

/-! ## Claim C1: week coverage of the grid -/

/-- C1 fails on the code: for the displayed month March 2025 (grid
2025-02-23 .. 2025-04-05, 42 cells) with today = 2025-03-10, the grid day
2025-03-31 lies in none of the six fetched Monday-anchored weeks — the
offsets cover only the 42 days starting at the Monday before the grid's
first (Sunday) cell, so a six-row grid's last six days are unfetched. -/
theorem claim_C1_uncovered_grid_day :
    daysFromCivil 2025 3 31 ∈ calendarDays 2025 2 ∧
    ((weeksToFetch (daysFromCivil 2025 3 10) 2025 2).all
      (fun o =>
        decide (daysFromCivil 2025 3 31 < mondayOfWeek (daysFromCivil 2025 3 10) + 7 * o) ||
        decide (mondayOfWeek (daysFromCivil 2025 3 10) + 7 * o + 6 <
          daysFromCivil 2025 3 31))) = true := by
  decide


/-! ## Decimal rendering is injective; date keys identify local days -/

theorem strExt {s t : String} (h : s.data = t.data) : s = t := by
  cases s; cases t; exact congrArg String.mk h

theorem digitsAux_lt_ten : ∀ (fuel n : Nat), ∀ d ∈ digitsAux fuel n, d < 10
  | 0, _ => by simp [digitsAux]
  | fuel + 1, n => by
      simp only [digitsAux]
      split
      · simp
      · intro d hd
        rcases List.mem_cons.mp hd with h | h
        · subst h; omega
        · exact digitsAux_lt_ten fuel (n / 10) d h

theorem digitsAux_val : ∀ (fuel n : Nat), n ≤ fuel → digitsVal (digitsAux fuel n) = n
  | 0, n, h => by simp [digitsAux, digitsVal]; omega
  | fuel + 1, n, h => by
      simp only [digitsAux]
      split
      · simp [digitsVal]; omega
      · show digitsVal (n % 10 :: digitsAux fuel (n / 10)) = n
        have ih := digitsAux_val fuel (n / 10) (by omega)
        show n % 10 + 10 * digitsVal (digitsAux fuel (n / 10)) = n
        omega

theorem decDigits_val (n : Nat) : digitsVal (decDigits n) = n :=
  digitsAux_val (n + 1) n (by omega)

theorem decDigits_lt_ten (n : Nat) : ∀ d ∈ decDigits n, d < 10 :=
  digitsAux_lt_ten (n + 1) n

theorem digitChar_inj_aux :
    ∀ d1 : Nat, d1 < 10 → ∀ d2 : Nat, d2 < 10 → digitChar d1 = digitChar d2 → d1 = d2 := by
  decide

theorem map_digitChar_inj : ∀ (l1 l2 : List Nat), (∀ x ∈ l1, x < 10) → (∀ x ∈ l2, x < 10) →
    l1.map digitChar = l2.map digitChar → l1 = l2
  | [], [], _, _, _ => rfl
  | [], _ :: _, _, _, h => by simp at h
  | _ :: _, [], _, _, h => by simp at h
  | a :: l1, b :: l2, h1, h2, h => by
      simp only [List.map_cons, List.cons.injEq] at h
      have ha := digitChar_inj_aux a (h1 a (by simp)) b (h2 b (by simp)) h.1
      have hrest := map_digitChar_inj l1 l2
        (fun x hx => h1 x (by simp [hx])) (fun x hx => h2 x (by simp [hx])) h.2
      rw [ha, hrest]

theorem decStr_eq_mk (n : Nat) :
    decStr n = String.mk ((if n = 0 then [0] else (decDigits n).reverse).map digitChar) := by
  by_cases h : n = 0
  · subst h; decide
  · simp [decStr, h]

theorem decStr_inj (a b : Nat) (h : decStr a = decStr b) : a = b := by
  rw [decStr_eq_mk, decStr_eq_mk] at h
  have hdata : ((if a = 0 then [0] else (decDigits a).reverse).map digitChar) =
      ((if b = 0 then [0] else (decDigits b).reverse).map digitChar) :=
    congrArg String.data h
  have hbound1 : ∀ x ∈ (if a = 0 then [0] else (decDigits a).reverse), x < 10 := by
    split
    · simp
    · intro x hx
      exact decDigits_lt_ten a x (List.mem_reverse.mp hx)
  have hbound2 : ∀ x ∈ (if b = 0 then [0] else (decDigits b).reverse), x < 10 := by
    split
    · simp
    · intro x hx
      exact decDigits_lt_ten b x (List.mem_reverse.mp hx)
  have hl := map_digitChar_inj _ _ hbound1 hbound2 hdata
  by_cases ha : a = 0 <;> by_cases hb : b = 0 <;> simp [ha, hb] at hl ⊢
  · have : decDigits b = [0] := by
      have := congrArg List.reverse hl
      simpa using this.symm
    have hv := decDigits_val b
    rw [this] at hv
    simp [digitsVal] at hv
    omega
  · have : decDigits a = [0] := by
      have := congrArg List.reverse hl
      simpa using this
    have hv := decDigits_val a
    rw [this] at hv
    simp [digitsVal] at hv
    omega
  · have : decDigits a = decDigits b := by
      have := congrArg List.reverse hl
      simpa using this
    have hva := decDigits_val a
    have hvb := decDigits_val b
    rw [this] at hva
    omega

theorem intStr_inj_nonneg (a b : Int) (ha : 0 ≤ a) (hb : 0 ≤ b)
    (h : intStr a = intStr b) : a = b := by
  unfold intStr at h
  rw [if_neg (by omega), if_neg (by omega)] at h
  have := decStr_inj _ _ h
  omega

theorem padTwo_len_nat : ∀ n : Nat, n < 100 → (padTwo (n : Int)).length = 2 := by
  decide

theorem padTwo_inj_nat :
    ∀ a : Nat, a < 32 → ∀ b : Nat, b < 32 → padTwo (a : Int) = padTwo (b : Int) → a = b := by
  decide

theorem padTwo_length (i : Int) (h0 : 0 ≤ i) (h1 : i < 100) : (padTwo i).length = 2 := by
  have h := padTwo_len_nat i.toNat (by omega)
  rwa [Int.toNat_of_nonneg h0] at h

theorem padTwo_inj (a b : Int) (ha0 : 0 ≤ a) (ha1 : a < 32) (hb0 : 0 ≤ b) (hb1 : b < 32)
    (h : padTwo a = padTwo b) : a = b := by
  have hn := padTwo_inj_nat a.toNat (by omega) b.toNat (by omega)
    (by rwa [Int.toNat_of_nonneg ha0, Int.toNat_of_nonneg hb0])
  omega

theorem key_split (a1 a2 b1 b2 c1 c2 : String)
    (hb1 : b1.length = 2) (hb2 : b2.length = 2) (hc1 : c1.length = 2) (hc2 : c2.length = 2)
    (h : a1 ++ "-" ++ b1 ++ "-" ++ c1 = a2 ++ "-" ++ b2 ++ "-" ++ c2) :
    a1 = a2 ∧ b1 = b2 ∧ c1 = c2 := by
  have hd : a1.data ++ ('-' :: (b1.data ++ ('-' :: c1.data))) =
      a2.data ++ ('-' :: (b2.data ++ ('-' :: c2.data))) := by
    have hds := congrArg String.data h
    simpa [String.data_append, List.append_assoc] using hds
  have hlen : ('-' :: (b1.data ++ ('-' :: c1.data))).length =
      ('-' :: (b2.data ++ ('-' :: c2.data))).length := by
    have e1 : b1.data.length = 2 := hb1
    have e2 : b2.data.length = 2 := hb2
    have e3 : c1.data.length = 2 := hc1
    have e4 : c2.data.length = 2 := hc2
    simp [List.length_append, e1, e2, e3, e4]
  obtain ⟨hA, hrest⟩ := List.append_inj' hd hlen
  have hrest2 : b1.data ++ ('-' :: c1.data) = b2.data ++ ('-' :: c2.data) := by
    injection hrest
  obtain ⟨hB, hrest3⟩ := List.append_inj hrest2 (by rw [show b1.data.length = 2 from hb1, show b2.data.length = 2 from hb2])
  have hC : c1.data = c2.data := by injection hrest3
  exact ⟨strExt hA, strExt hB, strExt hC⟩

theorem formatLocalDateKey_inj (y1 m1 d1 y2 m2 d2 : Int)
    (hy1 : 0 ≤ y1) (hy2 : 0 ≤ y2)
    (hm1 : 1 ≤ m1 ∧ m1 ≤ 12) (hm2 : 1 ≤ m2 ∧ m2 ≤ 12)
    (hd1 : 1 ≤ d1 ∧ d1 ≤ 31) (hd2 : 1 ≤ d2 ∧ d2 ≤ 31)
    (h : formatLocalDateKey y1 m1 d1 = formatLocalDateKey y2 m2 d2) :
    y1 = y2 ∧ m1 = m2 ∧ d1 = d2 := by
  obtain ⟨hA, hB, hC⟩ := key_split _ _ _ _ _ _
    (padTwo_length m1 (by omega) (by omega)) (padTwo_length m2 (by omega) (by omega))
    (padTwo_length d1 (by omega) (by omega)) (padTwo_length d2 (by omega) (by omega)) h
  refine ⟨intStr_inj_nonneg _ _ hy1 hy2 hA, ?_, ?_⟩
  · exact padTwo_inj _ _ (by omega) (by omega) (by omega) (by omega) hB
  · exact padTwo_inj _ _ (by omega) (by omega) (by omega) (by omega) hC

/-- Distinct local days (of nonnegative civil year) have distinct date
keys. -/
theorem dateKeyOfDay_inj (z1 z2 : Int)
    (hy1 : 0 ≤ (civilFromDays z1).1) (hy2 : 0 ≤ (civilFromDays z2).1)
    (h : dateKeyOfDay z1 = dateKeyOfDay z2) : z1 = z2 := by
  have b1 := civilFromDays_month_day_bounds z1
  have b2 := civilFromDays_month_day_bounds z2
  obtain ⟨hy, hm, hd⟩ := formatLocalDateKey_inj _ _ _ _ _ _ hy1 hy2
    ⟨b1.1, b1.2.1⟩ ⟨b2.1, b2.2.1⟩ ⟨b1.2.2.1, b1.2.2.2⟩ ⟨b2.2.2.1, b2.2.2.2⟩ h
  rw [← daysFromCivil_civilFromDays z1, ← daysFromCivil_civilFromDays z2, hy, hm, hd]

/-! ## Claim C6: the local date key -/

/-- C6.  `formatLocalDateKey` builds the key from the local civil year,
zero-padded month and zero-padded day of the date — no UTC-shifting
serialization is involved — and consequently two epoch instants receive the
same DateKey iff they fall on the same local calendar day (stated for civil
years ≥ 0; in particular the key never shifts to an adjacent day near local
midnight in negative-UTC-offset timezones). -/
theorem claim_C6_date_key_local (tz t1 t2 : Int)
    (hy1 : 0 ≤ (civilFromDays (localDay tz t1)).1)
    (hy2 : 0 ≤ (civilFromDays (localDay tz t2)).1) :
    epochToLocalDateKey tz t1 =
      intStr (civilFromDays (localDay tz t1)).1 ++ "-" ++
        padTwo (civilFromDays (localDay tz t1)).2.1 ++ "-" ++
        padTwo (civilFromDays (localDay tz t1)).2.2 ∧
    (epochToLocalDateKey tz t1 = epochToLocalDateKey tz t2 ↔
      localDay tz t1 = localDay tz t2) := by
  refine ⟨rfl, fun h => dateKeyOfDay_inj _ _ hy1 hy2 h, fun h => ?_⟩
  show dateKeyOfDay (localDay tz t1) = dateKeyOfDay (localDay tz t2)
  rw [h]

/-- C6 witness: for a viewer in UTC-8, the instants 2025-01-15T07:30:00Z and
2025-01-15T03:30:00Z both fall on local day 2025-01-14 and receive that same
key, which is the claimed `2025-01-14` (not `2025-01-15`). -/
theorem claim_C6_witness :
    0 ≤ (civilFromDays (localDay (-28800) 1736926200)).1 ∧
    0 ≤ (civilFromDays (localDay (-28800) 1736911800)).1 ∧
    epochToLocalDateKey (-28800) 1736926200 = epochToLocalDateKey (-28800) 1736911800 ∧
    epochToLocalDateKey (-28800) 1736926200 = "2025-01-14" :=
  ⟨by decide, by decide,
    (claim_C6_date_key_local (-28800) 1736926200 1736911800 (by decide) (by decide)).2.mpr
      (by decide),
    by decide⟩

/-! ## The aggregation map -/

theorem mapGetD_push (m : DayIndex) (k0 k : String) (v : ScheduleItem) :
    mapGetD (mapPush m k0 v) k =
      if k0 = k then mapGetD m k ++ [v] else mapGetD m k := by
  induction m with
  | nil => by_cases h : k0 = k <;> simp [mapPush, mapGetD, mapGet?, h]
  | cons hd t ih =>
      obtain ⟨k1, vs⟩ := hd
      by_cases h1 : k1 = k0
      · subst h1
        by_cases h2 : k1 = k <;> simp [mapPush, mapGetD, mapGet?, h2]
      · by_cases h2 : k1 = k
        · subst h2
          have h3 : ¬k0 = k1 := fun hh => h1 hh.symm
          simp [mapPush, mapGetD, mapGet?, h1, h3]
        · simp only [mapPush, if_neg h1]
          simp only [mapGetD, mapGet?, if_neg h2]
          exact ih

theorem mem_mapGetD_push (m : DayIndex) (k0 k : String) (v e : ScheduleItem) :
    e ∈ mapGetD (mapPush m k0 v) k ↔ e ∈ mapGetD m k ∨ (k0 = k ∧ e = v) := by
  rw [mapGetD_push]
  split_ifs with h <;> simp [h]

theorem mem_mapGetD_foldl (tz : Int) :
    ∀ (items : List ScheduleItem) (m : DayIndex) (k : String) (e : ScheduleItem),
      e ∈ mapGetD (items.foldl (pushItem tz) m) k ↔
        e ∈ mapGetD m k ∨ ∃ it ∈ items, itemKey tz it = k ∧ reKeyItem tz it = e
  | [], m, k, e => by simp
  | it :: items, m, k, e => by
      simp only [List.foldl_cons]
      rw [mem_mapGetD_foldl tz items, pushItem, mem_mapGetD_push]
      simp only [List.mem_cons]
      constructor
      · rintro ((h | ⟨h1, h2⟩) | ⟨x, hx, hk, he⟩)
        · exact Or.inl h
        · exact Or.inr ⟨it, Or.inl rfl, h1, h2.symm⟩
        · exact Or.inr ⟨x, Or.inr hx, hk, he⟩
      · rintro (h | ⟨x, hx | hx, hk, he⟩)
        · exact Or.inl (Or.inl h)
        · subst hx
          exact Or.inl (Or.inr ⟨hk, he.symm⟩)
        · exact Or.inr ⟨x, hx, hk, he⟩

theorem countWithId_push (m : DayIndex) (k0 : String) (v : ScheduleItem) (i : Int) :
    countWithId (mapPush m k0 v) i =
      countWithId m i + (if v.schedule_id = i then 1 else 0) := by
  induction m with
  | nil => by_cases h : v.schedule_id = i <;> simp [mapPush, countWithId, h]
  | cons hd t ih =>
      obtain ⟨k1, vs⟩ := hd
      by_cases h1 : k1 = k0
      · subst h1
        by_cases h : v.schedule_id = i <;>
          simp [mapPush, countWithId, List.filter_append, h] <;> omega
      · simp only [mapPush, if_neg h1]
        simp only [countWithId, List.map_cons, List.flatten_cons, List.filter_append,
          List.length_append] at ih ⊢
        omega

theorem countWithId_foldl (tz : Int) (i : Int) :
    ∀ (items : List ScheduleItem) (m : DayIndex),
      countWithId (items.foldl (pushItem tz) m) i =
        countWithId m i + (items.filter (fun it => it.schedule_id = i)).length
  | [], m => by simp
  | it :: items, m => by
      simp only [List.foldl_cons]
      rw [countWithId_foldl tz i items, pushItem, countWithId_push]
      have hsid : (reKeyItem tz it).schedule_id = it.schedule_id := rfl
      rw [hsid]
      by_cases h : it.schedule_id = i <;> simp [List.filter_cons, h] <;> omega

theorem addWeek_some (tz : Int) :
    ∀ (buckets : WeekSchedule) (m : DayIndex),
      addWeek tz m (some buckets) =
        ((buckets.map (fun b => b.2)).flatten).foldl (pushItem tz) m
  | [], _ => rfl
  | b :: bs, m => by
      have h1 : addWeek tz m (some (b :: bs)) =
          addWeek tz (b.2.foldl (pushItem tz) m) (some bs) := rfl
      rw [h1, addWeek_some tz bs]
      simp [List.foldl_append]

theorem foldl_addWeek_eq (tz : Int) :
    ∀ (results : List FetchResult) (m : DayIndex),
      results.foldl (addWeek tz) m = (allItems results).foldl (pushItem tz) m
  | [], _ => rfl
  | none :: rest, m => by
      simp only [List.foldl_cons]
      have h1 : addWeek tz m none = m := rfl
      have h2 : allItems (none :: rest) = allItems rest := rfl
      rw [h1, h2, foldl_addWeek_eq tz rest]
  | some buckets :: rest, m => by
      simp only [List.foldl_cons]
      have h2 : allItems (some buckets :: rest) =
          (buckets.map (fun b => b.2)).flatten ++ allItems rest := rfl
      rw [foldl_addWeek_eq tz rest, addWeek_some, h2, List.foldl_append]

/-- The aggregation pass, flattened: the index is the fold of the pushes of
all successfully fetched entries, in order, into the empty map. -/
theorem buildIndex_eq_foldl (tz : Int) (results : List FetchResult) :
    buildIndex tz results = (allItems results).foldl (pushItem tz) [] :=
  foldl_addWeek_eq tz results []

theorem foldl_addWeek_filter (tz : Int) :
    ∀ (results : List FetchResult) (m : DayIndex),
      results.foldl (addWeek tz) m =
        (results.filter (fun r => r.isSome)).foldl (addWeek tz) m
  | [], _ => rfl
  | none :: rest, m => by
      simp only [List.foldl_cons, List.filter_cons]
      have h1 : addWeek tz m none = m := rfl
      simp only [Option.isSome_none, Bool.false_eq_true, if_false, h1]
      exact foldl_addWeek_filter tz rest m
  | some buckets :: rest, m => by
      simp only [List.foldl_cons, List.filter_cons, Option.isSome_some, if_true]
      exact foldl_addWeek_filter tz rest _

theorem allItems_renameBuckets (f : String → String) :
    ∀ results : List FetchResult, allItems (renameBuckets f results) = allItems results
  | [] => rfl
  | none :: rest => by
      have h1 : renameBuckets f (none :: rest) = none :: renameBuckets f rest := rfl
      rw [h1]
      have h2 : allItems (none :: renameBuckets f rest) = allItems (renameBuckets f rest) := rfl
      have h3 : allItems (none :: rest) = allItems rest := rfl
      rw [h2, h3, allItems_renameBuckets f rest]
  | some buckets :: rest => by
      have h1 : renameBuckets f (some buckets :: rest) =
          some (buckets.map (fun b => (f b.1, b.2))) :: renameBuckets f rest := rfl
      rw [h1]
      have h2 : allItems (some (buckets.map (fun b => (f b.1, b.2))) :: renameBuckets f rest) =
          ((buckets.map (fun b => (f b.1, b.2))).map (fun b => b.2)).flatten ++
            allItems (renameBuckets f rest) := rfl
      have h3 : allItems (some buckets :: rest) =
          (buckets.map (fun b => b.2)).flatten ++ allItems rest := rfl
      rw [h2, h3, allItems_renameBuckets f rest, List.map_map]
      rfl

/-! ## Claim C3: duplicate schedule ids are retained, not deduplicated -/

/-- C3 (amended).  The aggregation pass performs no deduplication: for every
`schedule_id`, the built CalendarDayIndex stores exactly one entry per
occurrence of that id across all successfully fetched week payloads, so an
id repeated by two overlapping weeks appears twice; ids are unique in the
index only when they are unique across the fetched payloads. -/
theorem claim_C3_duplicates_retained (tz : Int) (results : List FetchResult) (i : Int) :
    countWithId (buildIndex tz results) i =
      ((allItems results).filter (fun it => it.schedule_id = i)).length := by
  rw [buildIndex_eq_foldl, countWithId_foldl]
  simp [countWithId]

/-- C3 counterexample to the claim as stated: two fetched weeks both carry
the entry with `schedule_id = 42`; the resulting index holds two entries
with id 42, not exactly one. -/
theorem claim_C3_counterexample :
    countWithId
        (buildIndex (-28800)
          [some [("WEDNESDAY", [dupItem])], some [("WEDNESDAY", [dupItem])]]) 42 = 2 ∧
    countWithId
        (buildIndex (-28800)
          [some [("WEDNESDAY", [dupItem])], some [("WEDNESDAY", [dupItem])]]) 42 ≠ 1 := by
  decide

/-! ## Claim C5: entries are indexed under the locally recomputed key -/

/-- C5.  Every fetched entry is stored in the index under the viewer-local
date key recomputed from its `airing_at` epoch timestamp; the server's own
day-bucket keys are ignored entirely (renaming every bucket key leaves the
built index unchanged). -/
theorem claim_C5_local_key (tz : Int) (results : List FetchResult) (it : ScheduleItem)
    (h : it ∈ allItems results) (f : String → String) :
    reKeyItem tz it ∈ mapGetD (buildIndex tz results) (itemKey tz it) ∧
    buildIndex tz (renameBuckets f results) = buildIndex tz results := by
  constructor
  · rw [buildIndex_eq_foldl, mem_mapGetD_foldl]
    exact Or.inr ⟨it, h, rfl, rfl⟩
  · rw [buildIndex_eq_foldl, buildIndex_eq_foldl, allItems_renameBuckets]

/-- C5 witness: a viewer in UTC-8 receives an entry airing at
2025-01-15T07:30:00Z inside a server bucket labelled `2025-01-15`-style
(`WEDNESDAY`); it is indexed under `2025-01-14`, and nothing is indexed
under `2025-01-15`. -/
theorem claim_C5_witness :
    dupItem ∈ allItems [some [("WEDNESDAY", [dupItem])]] ∧
    itemKey (-28800) dupItem = "2025-01-14" ∧
    reKeyItem (-28800) dupItem ∈
      mapGetD (buildIndex (-28800) [some [("WEDNESDAY", [dupItem])]]) "2025-01-14" ∧
    mapGetD (buildIndex (-28800) [some [("WEDNESDAY", [dupItem])]]) "2025-01-15" = [] :=
  ⟨by decide, by decide,
    by
      have h := (claim_C5_local_key (-28800) [some [("WEDNESDAY", [dupItem])]] dupItem
        (by decide) id).1
      rwa [show itemKey (-28800) dupItem = "2025-01-14" from by decide] at h,
    by decide⟩

/-! ## Claim C10: the stored entry differs from the fetched one only in
`airing_date` -/

/-- C10.  Every entry stored in the built index has its `airing_date` field
equal to the index key under which it is stored (the locally recomputed
key), and originates from a fetched entry from which it differs in no other
field. -/
theorem claim_C10_airing_date_frame (tz : Int) (results : List FetchResult)
    (k : String) (e : ScheduleItem)
    (h : e ∈ mapGetD (buildIndex tz results) k) :
    e.airing_date = k ∧
    ∃ it ∈ allItems results,
      k = itemKey tz it ∧
      e.schedule_id = it.schedule_id ∧ e.airing_at = it.airing_at ∧
      e.episode = it.episode ∧ e.anime_id = it.anime_id ∧ e.title = it.title ∧
      e.cover_image = it.cover_image ∧ e.status = it.status ∧
      e.total_episodes = it.total_episodes ∧ e.score = it.score ∧
      e.airs_in_human = it.airs_in_human ∧ e.airing_status = it.airing_status ∧
      e.airing_time = it.airing_time := by
  rw [buildIndex_eq_foldl, mem_mapGetD_foldl] at h
  rcases h with h | ⟨it, hit, hk, he⟩
  · simp [mapGetD, mapGet?] at h
  · subst he
    subst hk
    exact ⟨rfl, it, hit, rfl, rfl, rfl, rfl, rfl, rfl, rfl, rfl, rfl, rfl, rfl, rfl, rfl⟩

/-- C10 witness: the stored copy of the duplicated sample entry, found under
key `2025-01-14`, carries `airing_date = "2025-01-14"` (overwriting the
server's `2025-01-15`) and agrees with the fetched entry elsewhere. -/
theorem claim_C10_witness :
    (reKeyItem (-28800) dupItem ∈
      mapGetD (buildIndex (-28800) [some [("WEDNESDAY", [dupItem])]]) "2025-01-14") ∧
    (reKeyItem (-28800) dupItem).airing_date = "2025-01-14" ∧
    ∃ it ∈ allItems [some [("WEDNESDAY", [dupItem])]],
      "2025-01-14" = itemKey (-28800) it ∧
      (reKeyItem (-28800) dupItem).schedule_id = it.schedule_id ∧
      (reKeyItem (-28800) dupItem).airing_at = it.airing_at ∧
      (reKeyItem (-28800) dupItem).episode = it.episode ∧
      (reKeyItem (-28800) dupItem).anime_id = it.anime_id ∧
      (reKeyItem (-28800) dupItem).title = it.title ∧
      (reKeyItem (-28800) dupItem).cover_image = it.cover_image ∧
      (reKeyItem (-28800) dupItem).status = it.status ∧
      (reKeyItem (-28800) dupItem).total_episodes = it.total_episodes ∧
      (reKeyItem (-28800) dupItem).score = it.score ∧
      (reKeyItem (-28800) dupItem).airs_in_human = it.airs_in_human ∧
      (reKeyItem (-28800) dupItem).airing_status = it.airing_status ∧
      (reKeyItem (-28800) dupItem).airing_time = it.airing_time := by
  have hmem : reKeyItem (-28800) dupItem ∈
      mapGetD (buildIndex (-28800) [some [("WEDNESDAY", [dupItem])]]) "2025-01-14" := by
    decide
  have h := claim_C10_airing_date_frame (-28800) [some [("WEDNESDAY", [dupItem])]]
    "2025-01-14" (reKeyItem (-28800) dupItem) hmem
  exact ⟨hmem, h.1, h.2⟩

/-! ## Claim C4: the default-selection decision order -/

theorem mapHas_false_getD (m : DayIndex) (k : String)
    (h : mapHas m k = false) : mapGetD m k = [] := by
  induction m with
  | nil => rfl
  | cons hd t ih =>
      obtain ⟨k1, vs⟩ := hd
      by_cases h1 : k1 = k
      · simp [mapHas, h1] at h
      · simp only [mapHas, if_neg h1] at h
        simp only [mapGetD, mapGet?, if_neg h1]
        exact ih h

theorem find_pred_eq (idx : DayIndex) (k : String) :
    (mapHas idx k && (mapGetD idx k).length != 0) = !(mapGetD idx k).isEmpty := by
  cases hh : mapHas idx k with
  | false =>
      rw [mapHas_false_getD idx k hh]
      rfl
  | true =>
      rw [Bool.true_and]
      cases mapGetD idx k <;> rfl

theorem fallback_eq_rules (idx : DayIndex) (y m today : Int) :
    codeFallback idx y m today = specRules idx y m today := by
  unfold codeFallback specRules
  have hpred :
      (fun d => mapHas idx (dateKeyOfDay d) && (mapGetD idx (dateKeyOfDay d)).length != 0) =
        (fun d => !(mapGetD idx (dateKeyOfDay d)).isEmpty) :=
    funext fun d => find_pred_eq idx (dateKeyOfDay d)
  rw [hpred]
  by_cases h : (civilFromDays today).2.1 = m + 1 ∧ (civilFromDays today).1 = y
  · rw [if_pos h, if_pos (and_comm.mp h)]
  · rw [if_neg h, if_neg (fun hh => h (and_comm.mp hh))]

/-- C4.  Against any new index, displayed month, previous selection and
today, the code's post-load selection equals the specified first-match rule
chain — keep a previous selection that is a key of the index; else today's
key when today is in the displayed month; else the first day of the month,
in ascending calendar order, with a non-empty entry list; else the first
day of the month — provided the previous selection, when present, is a
non-empty string (a well-formed DateKey; the empty string is JS-falsy and
would skip rule 1). -/
theorem claim_C4_selection_order (idx : DayIndex) (y m : Int) (prev : Option String)
    (today : Int) (hprev : ∀ k, prev = some k → k ≠ "") :
    codeSelect idx y m prev today = specSelect idx y m prev today := by
  cases prev with
  | none =>
      show codeFallback idx y m today = specRules idx y m today
      exact fallback_eq_rules idx y m today
  | some k =>
      have hk : ¬(k = "") := hprev k rfl
      show (if rule1Keeps idx (some k) then k else codeFallback idx y m today) =
        if mapHas idx k then k else specRules idx y m today
      have h1 : rule1Keeps idx (some k) = mapHas idx k := by
        simp [rule1Keeps, hk]
      rw [h1]
      by_cases hh : mapHas idx k = true
      · rw [if_pos hh, if_pos hh]
      · rw [if_neg hh, if_neg hh]
        exact fallback_eq_rules idx y m today

/-- C4 witness: the spec's own scenario — displayed month March 2025, today
2025-03-10 with no entries that day, no previous selection; both the code's
selection and the rule chain pick `2025-03-10` (rule 2 beats rule 3). -/
theorem claim_C4_witness :
    (∀ k : String, (none : Option String) = some k → k ≠ "") ∧
    codeSelect [("2025-03-03", [raceItemA])] 2025 2 none (daysFromCivil 2025 3 10) =
      specSelect [("2025-03-03", [raceItemA])] 2025 2 none (daysFromCivil 2025 3 10) ∧
    codeSelect [("2025-03-03", [raceItemA])] 2025 2 none (daysFromCivil 2025 3 10) =
      "2025-03-10" := by
  constructor
  · intro k h
    exact nomatch h
  constructor
  · exact claim_C4_selection_order [("2025-03-03", [raceItemA])] 2025 2 none
      (daysFromCivil 2025 3 10) (fun k h => nomatch h)
  · decide

/-! ## The asynchronous loader: rounds, partial failure, idempotence,
interleaving -/

theorem applySteps_append (xs ys : List (CompState → CompState)) (s : CompState) :
    applySteps (xs ++ ys) s = applySteps ys (applySteps xs s) :=
  List.foldl_append ..

theorem completionStep_fields (r : Round) (s : CompState) :
    (completionStep r s).scheduleData = buildIndex r.tz r.results ∧
    (completionStep r s).loading = false ∧
    (completionStep r s).loadingProgress = 100 := by
  cases h : rule1Keeps (buildIndex r.tz r.results) r.closureSelected <;>
    simp [completionStep, h]

theorem runRound_fields (r : Round) (s : CompState) :
    (runRound r s).scheduleData = buildIndex r.tz r.results ∧
    (runRound r s).loading = false ∧
    (runRound r s).loadingProgress = 100 := by
  unfold runRound roundSteps
  rw [applySteps_append]
  exact completionStep_fields r _

/-! ## Claim C7: partial-failure tolerance -/

/-- C7.  However many of the week fetches fail (any subset, including all),
the round still completes: the committed index is exactly the aggregation
of the succeeding weeks (each failed week contributes nothing), and once
all attempts have settled the round reports `loading = false` (and progress
100). -/
theorem claim_C7_partial_failure (r : Round) (s : CompState) :
    (runRound r s).scheduleData = buildIndex r.tz r.results ∧
    buildIndex r.tz r.results =
      buildIndex r.tz (r.results.filter (fun x => x.isSome)) ∧
    (runRound r s).loading = false ∧
    (runRound r s).loadingProgress = 100 := by
  obtain ⟨h1, h2, h3⟩ := runRound_fields r s
  exact ⟨h1, foldl_addWeek_filter r.tz r.results [], h2, h3⟩

/-! ## Claim C9: aggregation is idempotent and history-independent -/

/-- C9.  The aggregation pass builds a brand-new index from the six fetch
results alone: running the same round from any two prior states (in
particular from a state that already holds a previous aggregation's index)
commits identical index contents — the same keys in the same order with the
same ordered entry lists — and running the round twice commits the same
index as running it once. -/
theorem claim_C9_idempotent (r : Round) (s1 s2 : CompState) :
    (runRound r s1).scheduleData = (runRound r s2).scheduleData ∧
    (runRound r (runRound r s1)).scheduleData = (runRound r s1).scheduleData := by
  obtain ⟨h1, _, _⟩ := runRound_fields r s1
  obtain ⟨h2, _, _⟩ := runRound_fields r s2
  obtain ⟨h3, _, _⟩ := runRound_fields r (runRound r s1)
  exact ⟨h1.trans h2.symm, h3.trans h1.symm⟩

/-! ## Claim C2: a stale round can overwrite the newer round's index -/

/-- C2 fails on the code: `loadMonthSchedule` commits
`setScheduleData(newScheduleData)` without comparing its round against the
latest one, so in the event-loop interleaving where round B (for the newly
displayed month) completes while round A is suspended and A's completion
segment runs last, the index finally exposed is round A's, not round B's.
The trace below is a legal interleaving of the two rounds' segment
sequences, and running it from the initial state leaves round A's index —
which differs from round B's — in `scheduleData`. -/
theorem claim_C2_stale_round_overwrites :
    Interleave raceTrace (roundSteps roundA) (roundSteps roundB) ∧
    (applySteps raceTrace initState).scheduleData = buildIndex roundA.tz roundA.results ∧
    buildIndex roundA.tz roundA.results ≠ buildIndex roundB.tz roundB.results := by
  refine ⟨?_, ?_, ?_⟩
  · have hA : roundSteps roundA = [startStep, completionStep roundA] := rfl
    have hB : roundSteps roundB = [startStep, completionStep roundB] := rfl
    have hT : raceTrace =
        [startStep, startStep, completionStep roundB, completionStep roundA] := rfl
    rw [hA, hB, hT]
    exact .left _ (.right _ (.right _ (.left _ .nil)))
  · decide
  · decide

end AnimeCal
